import Mathlib

/-!
Shallow embedding of the core of `src/HttpServer.hh` (namespace
`SimpleHttpServer`): the incremental HTTP request parser
(`httpRequestParse`), the request/response data holders, the status
message table (`httpStatusMessage`), response serialization
(`Response::send`, `Response::errorPage`) and the per-connection
request handler (`serverRequestHandler`).

Strings are modelled as `List Char` (one entry per byte of the C++
`std::string`); `std::map<std::string, std::string>` is modelled as an
association list kept sorted by byte-wise lexicographic key order,
which is exactly the iteration order of `std::map` with the default
`std::less<std::string>` comparator.  Socket I/O is abstracted away:
writes are collected as values, and the handler is modelled on the
single-successful-`recv` path the reference implementation takes.
-/

namespace SimpleHttpServer

/-- A C++ `std::string`, one list entry per byte. -/
abbrev Str := List Char

/-- Byte-wise lexicographic order on strings: the default
`std::less<std::string>` used by `std::map`. -/
def strLtB : Str → Str → Bool
  | [], [] => false
  | [], _ :: _ => true
  | _ :: _, [] => false
  | a :: as, b :: bs =>
    if a < b then true
    else if b < a then false
    else strLtB as bs

/-- `std::map<std::string, std::string>`: an association list kept
sorted by `strLtB` on the keys. -/
abbrev Smap := List (Str × Str)

/-- `m[k] = v` on a `std::map`: insert at the sorted position, or
overwrite the value when the key is already present. -/
def mapSet : Smap → Str → Str → Smap
  | [], k, v => [(k, v)]
  | (k', v') :: rest, k, v =>
    if strLtB k k' then (k, v) :: (k', v') :: rest
    else if strLtB k' k then (k', v') :: mapSet rest k v
    else (k, v) :: rest

/-- `m.find(k)`: the value stored under `k`, when present. -/
def mapFind? : Smap → Str → Option Str
  | [], _ => none
  | (k', v') :: rest, k => if k' = k then some v' else mapFind? rest k

/-- Reading `m[k]` where an absent key denotes the default-constructed
empty string. -/
def mapGetD (m : Smap) (k : Str) : Str := (mapFind? m k).getD []

/-- `isdigit(c)` for the ASCII digits, as used by the parser. -/
def isdigitB (c : Char) : Bool := 48 ≤ c.toNat && c.toNat ≤ 57

/-- One character of `strtolower`: `str[i] += 32` when `'A' <= str[i]
&& str[i] <= 'Z'`. -/
def lowerChar (c : Char) : Char :=
  if 'A' ≤ c ∧ c ≤ 'Z' then Char.ofNat (c.toNat + 32) else c

/-- `strtolower`: lower-case every character of the string in place. -/
def strtolower (s : Str) : Str := s.map lowerChar

/-- The "simple XSS filter" test of the URL and query-string states:
`buffer[i] == '<' || buffer[i] == '>' || buffer[i] == 34 || buffer[i] == 39`
(34 is `"`, 39 is the single quote). -/
def isBadUrlChar (c : Char) : Bool :=
  c == '<' || c == '>' || c.toNat == 34 || c.toNat == 39

/-- `true` when the string contains one of the four filtered
characters. -/
def hasBadUrlChar (s : Str) : Bool := s.any isBadUrlChar

/-- The parser states `PARSER_STATE_*`. -/
inductive PState where
  | method
  | url
  | urlQs
  | protocol
  | major
  | minor
  | headers
deriving DecidableEq

/-- The `Request` data holder (HTTP fields only; the socket handle and
peer address are connection plumbing with no protocol content). -/
structure Request where
  hasError : Bool := false
  method : Str := []
  url : Str := []
  queryString : Str := []
  httpMajorVersion : Nat := 0
  httpMinorVersion : Nat := 0
  headers : Smap := []
deriving DecidableEq

/-- The state of one `httpRequestParse` pass: the request being
mutated plus the locals `tmp`, `state` and `isKey`. -/
structure PMachine where
  req : Request
  tmp : Str := []
  state : PState := PState.method
  isKey : Bool := true
deriving DecidableEq

/-- One iteration of the `for` loop of `httpRequestParse`: the
`switch (state)` over the current character. -/
def parseStep (m : PMachine) (c : Char) : PMachine :=
  match m.state with
  | PState.method =>
    if c = ' ' then
      { m with req := { m.req with method := m.tmp }, state := PState.url, tmp := [] }
    else
      { m with tmp := m.tmp ++ [c] }
  | PState.url =>
    if c = ' ' ∨ c = '?' then
      { m with req := { m.req with url := m.tmp },
               state := if c = '?' then PState.urlQs else PState.protocol,
               tmp := [] }
    else if isBadUrlChar c then m
    else { m with tmp := m.tmp ++ [c] }
  | PState.urlQs =>
    if c = ' ' then
      { m with req := { m.req with queryString := m.tmp },
               state := PState.protocol, tmp := [] }
    else if isBadUrlChar c then m
    else { m with tmp := m.tmp ++ [c] }
  | PState.protocol =>
    if c = '/' then
      { m with req := if m.tmp ≠ "HTTP".data then { m.req with hasError := true } else m.req,
               state := PState.major, tmp := [] }
    else { m with tmp := m.tmp ++ [c] }
  | PState.major =>
    if isdigitB c then
      { m with req := { m.req with httpMajorVersion := c.toNat - 48 } }
    else if c = '.' then { m with state := PState.minor }
    else m
  | PState.minor =>
    let m1 :=
      if isdigitB c then
        { m with req := { m.req with httpMinorVersion := c.toNat - 48 } }
      else m
    if c = '\n' then { m1 with state := PState.headers } else m1
  | PState.headers =>
    if c = '\n' then
      { m with isKey := true, tmp := [] }
    else if m.isKey ∧ c = ':' then
      { m with tmp := strtolower m.tmp,
               req := { m.req with headers := mapSet m.req.headers (strtolower m.tmp) [] },
               isKey := false }
    else if m.isKey then
      { m with tmp := m.tmp ++ [c] }
    else
      if c = '\r' then m
      else if mapGetD m.req.headers m.tmp = [] ∧ c = ' ' then
        { m with req := { m.req with headers := mapSet m.req.headers m.tmp [] } }
      else
        { m with req := { m.req with headers := (mapSet m.req.headers m.tmp
            (mapGetD m.req.headers m.tmp ++ [c])) } }

/-- The whole `for` loop: fold `parseStep` over the buffer. -/
def parseChars (m : PMachine) (buf : Str) : PMachine := buf.foldl parseStep m

/-- The fresh machine at the top of `httpRequestParse`:
`tmp = ""`, `state = PARSER_STATE_METHOD`, `isKey = true`. -/
def initMachine (req : Request) : PMachine :=
  { req := req, tmp := [], state := PState.method, isKey := true }

/-- `httpRequestParse(req, buffer, length)`: run the state machine over
the buffer, then force `hasError` when `httpMajorVersion != 1`.
(The C++ function always returns `true`; its effect is the mutated
request, which is what we return.) -/
def httpRequestParse (req : Request) (buf : Str) : Request :=
  let m := parseChars (initMachine req) buf
  if m.req.httpMajorVersion ≠ 1 then { m.req with hasError := true } else m.req

/-- The static status table of `httpStatusMessage` (the `{0, NULL}`
sentinel is the end of the list). -/
def statusTable : List (Nat × Str) :=
  [ (200, "Ok".data)
  , (301, "Moved Permanently".data)
  , (302, "Found".data)
  , (304, "Not Modified".data)
  , (307, "Temporary Redirect".data)
  , (400, "Bad Request".data)
  , (401, "Unauthorized".data)
  , (403, "Forbidden".data)
  , (404, "Not Found".data)
  , (405, "Method Not Allowed".data)
  , (411, "Length Required".data)
  , (413, "Request Entity Too Large".data)
  , (414, "Request-URI Too Long".data)
  , (429, "Too Many Requests".data)
  , (500, "Internal Server Error".data)
  , (502, "Bad Gateway".data)
  , (503, "Service Unavailable".data)
  , (504, "Gateway Timeout".data)
  , (505, "HTTP Version Not Supported".data) ]

/-- `httpStatusMessage`: linear scan of the table; an unknown code
yields `NULL`, modelled as `none`. -/
def httpStatusMessage (code : Nat) : Option Str :=
  (statusTable.find? (fun p => p.1 = code)).map (fun p => p.2)

/-- The `Response` data holder.  `req` models the `Request *req`
back-pointer used by `send` for the minor version. -/
structure Response where
  req : Request := {}
  statusCode : Nat := 200
  headers : Smap := []
  body : Str := []
deriving DecidableEq

/-- `Response::header(key, value)`: `headers[key] = value`. -/
def Response.header (res : Response) (k v : Str) : Response :=
  { res with headers := mapSet res.headers k v }

/-- `Response::errorPage`: set `Content-Type` and `Cache-Control`,
then build the HTML error body.  The C++ code appends the `const
char *` returned by `httpStatusMessage` to a `std::string`; when that
pointer is `NULL` the append is undefined behaviour, modelled here as
`none`. -/
def Response.errorPage (res : Response) : Option Response :=
  match httpStatusMessage res.statusCode with
  | none => none
  | some msg =>
    let r := (res.header "Content-Type".data "text/html".data).header
      "Cache-Control".data "no-cache, no-store, must-revalidate".data
    some { r with body :=
      "<!doctype html><html lang=\"en\">".data
      ++ "<head><title>Error</title></head>".data
      ++ "<body><h1>Error ".data
      ++ (Nat.repr res.statusCode).data
      ++ "</h1><hr><p>".data
      ++ msg
      ++ "</p></body></html>".data }

/-- The header-map mutation `send` performs before serializing:
`headers["Content-Length"] = to_string(body.length())` and
`headers["Conection"] = "close"` (the misspelling is the code's). -/
def sendPrepare (res : Response) : Response :=
  { res with headers := (mapSet
      (mapSet res.headers "Content-Length".data (Nat.repr res.body.length).data)
      "Conection".data "close".data) }

/-- The header lines of the head block: one `key: value CRLF` line per
map entry, in map iteration order. -/
def headerBlock (hs : Smap) : Str :=
  hs.foldl (fun acc h => acc ++ h.1 ++ ": ".data ++ h.2 ++ "\r\n".data) []

/-- The `head` string built by `Response::send` (status line, header
lines, blank line).  Appending the `NULL` returned by
`httpStatusMessage` for an unknown code is undefined behaviour,
modelled as `none`. -/
def sendHead (res : Response) : Option Str :=
  match httpStatusMessage res.statusCode with
  | none => none
  | some msg =>
    some ("HTTP/1.".data
      ++ [if res.req.httpMinorVersion = 0 then '0' else '1']
      ++ " ".data
      ++ (Nat.repr res.statusCode).data
      ++ " ".data
      ++ msg
      ++ "\r\n".data
      ++ headerBlock res.headers
      ++ "\r\n".data)

/-- `Response::send`: mutate the header map, build the head, then
write head and body.  The result is the mutated response together with
the two written buffers; socket write failures are transport-level and
abstracted away. -/
def Response.send (res : Response) : Option (Response × Str × Str) :=
  let r := sendPrepare res
  match sendHead r with
  | none => none
  | some h => some (r, h, r.body)

/-- Outcome of one connection: the final response object, the bytes
written on the error path (head and body), and whether the
application callback was invoked. -/
structure HandlerOutcome where
  response : Response
  wire : Option (Str × Str)
  callbackInvoked : Bool
deriving DecidableEq

/-- `serverRequestHandler` on the single-successful-`recv` path: parse
the buffer into a fresh request; on `hasError` answer 400 with the
error page and never reach the callback; otherwise invoke the
registered callback (modelled by the `cbRegistered` flag). -/
def serverRequestHandler (cbRegistered : Bool) (buf : Str) : HandlerOutcome :=
  let req := httpRequestParse {} buf
  let res : Response := { req := req }
  if req.hasError then
    let res400 : Response := { res with statusCode := 400 }
    match res400.errorPage with
    | none => { response := res400, wire := none, callbackInvoked := false }
    | some resErr =>
      match resErr.send with
      | none => { response := resErr, wire := none, callbackInvoked := false }
      | some (r, h, b) => { response := r, wire := some (h, b), callbackInvoked := false }
  else
    { response := res, wire := none, callbackInvoked := cbRegistered }

/-- `true` when every adjacent pair of keys is strictly increasing in
`strLtB`: the shape every `std::map` value has. -/
def sortedKeysB : Smap → Bool
  | [] => true
  | [_] => true
  | a :: b :: rest => strLtB a.1 b.1 && sortedKeysB (b :: rest)

/-! ### Helper lemmas -/

theorem strLtB_irrefl : ∀ a : Str, strLtB a a = false := by
  intro a
  induction a with
  | nil => rfl
  | cons x xs ih => simp [strLtB, ih]

theorem eq_of_strLtB_false : ∀ a b : Str,
    strLtB a b = false → strLtB b a = false → a = b := by
  intro a
  induction a with
  | nil =>
    intro b h1 _
    cases b with
    | nil => rfl
    | cons y ys => simp [strLtB] at h1
  | cons x xs ih =>
    intro b h1 h2
    cases b with
    | nil => simp [strLtB] at h2
    | cons y ys =>
      by_cases hxy : x < y
      · simp [strLtB, hxy] at h1
      · by_cases hyx : y < x
        · simp [strLtB, hyx, hxy] at h2
        · have hx : x = y := le_antisymm (not_lt.mp hyx) (not_lt.mp hxy)
          subst hx
          simp [strLtB, lt_irrefl] at h1 h2
          rw [ih ys h1 h2]

theorem mapFind?_mapSet_self : ∀ (m : Smap) (k v : Str),
    mapFind? (mapSet m k v) k = some v := by
  intro m k v
  induction m with
  | nil => simp [mapSet, mapFind?]
  | cons hd tl ih =>
    by_cases h1 : strLtB k hd.1 = true
    · simp [mapSet, h1, mapFind?]
    · by_cases h2 : strLtB hd.1 k = true
      · have hne : hd.1 ≠ k := by
          intro he
          rw [he] at h2
          rw [strLtB_irrefl] at h2
          exact Bool.false_ne_true h2
        simp [mapSet, h1, h2, mapFind?, hne, ih]
      · simp [mapSet, h1, h2, mapFind?]

theorem mapFind?_mapSet_ne : ∀ (m : Smap) (k v k2 : Str), k2 ≠ k →
    mapFind? (mapSet m k v) k2 = mapFind? m k2 := by
  intro m k v k2 hne
  have hne' : ¬(k = k2) := fun h => hne h.symm
  induction m with
  | nil => simp [mapSet, mapFind?, hne']
  | cons hd tl ih =>
    by_cases h1 : strLtB k hd.1 = true
    · simp [mapSet, h1, mapFind?, hne']
    · by_cases h2 : strLtB hd.1 k = true
      · simp [mapSet, h1, h2, mapFind?, ih]
      · have hk : k = hd.1 :=
          eq_of_strLtB_false k hd.1 (Bool.not_eq_true _ ▸ h1) (Bool.not_eq_true _ ▸ h2)
        have hne2 : ¬(hd.1 = k2) := by
          intro he
          exact hne (he ▸ hk.symm)
        simp [mapSet, h1, h2, mapFind?, hne2, hne']

theorem sortedKeysB_mapSet (k v : Str) : ∀ m : Smap,
    sortedKeysB m = true → sortedKeysB (mapSet m k v) = true := by
  intro m
  induction m with
  | nil => intro _; simp [mapSet, sortedKeysB]
  | cons hd tl ih =>
    intro hs
    cases tl with
    | nil =>
      by_cases h1 : strLtB k hd.1 = true
      · simp [mapSet, h1, sortedKeysB]
      · by_cases h2 : strLtB hd.1 k = true
        · simp [mapSet, h1, h2, sortedKeysB]
        · simp [mapSet, h1, h2, sortedKeysB]
    | cons hd2 tl2 =>
      have hchain : strLtB hd.1 hd2.1 = true := by
        simp [sortedKeysB] at hs
        exact hs.1
      have hrest : sortedKeysB (hd2 :: tl2) = true := by
        simp [sortedKeysB] at hs ⊢
        exact hs.2
      by_cases h1 : strLtB k hd.1 = true
      · simp [mapSet, h1, sortedKeysB, hchain, hrest, hs]
      · by_cases h2 : strLtB hd.1 k = true
        · have hmain := ih hrest
          have houter : mapSet (hd :: hd2 :: tl2) k v = hd :: mapSet (hd2 :: tl2) k v := by
            simp [mapSet, h1, h2]
          rw [houter]
          by_cases h3 : strLtB k hd2.1 = true
          · have hmap : mapSet (hd2 :: tl2) k v = (k, v) :: hd2 :: tl2 := by
              simp [mapSet, h3]
            rw [hmap]
            simp [sortedKeysB, h2, h3, hchain, hrest]
          · by_cases h4 : strLtB hd2.1 k = true
            · have hmap : mapSet (hd2 :: tl2) k v = hd2 :: mapSet tl2 k v := by
                simp [mapSet, h3, h4]
              rw [hmap]
              rw [hmap] at hmain
              cases hm : mapSet tl2 k v with
              | nil => simp [sortedKeysB, hchain]
              | cons hd3 tl3 =>
                rw [hm] at hmain
                simp [sortedKeysB] at hmain ⊢
                exact ⟨hchain, hmain.1, hmain.2⟩
            · have hk : k = hd2.1 :=
                eq_of_strLtB_false k hd2.1 (Bool.not_eq_true _ ▸ h3) (Bool.not_eq_true _ ▸ h4)
              have hmap : mapSet (hd2 :: tl2) k v = (k, v) :: tl2 := by
                simp [mapSet, h3, h4]
              rw [hmap]
              cases tl2 with
              | nil => simp [sortedKeysB, h2]
              | cons hd3 tl3 =>
                simp [sortedKeysB] at hrest ⊢
                exact ⟨h2, hk ▸ hrest.1, hrest.2⟩
        · have hk : k = hd.1 :=
            eq_of_strLtB_false k hd.1 (Bool.not_eq_true _ ▸ h1) (Bool.not_eq_true _ ▸ h2)
          have hmap : mapSet (hd :: hd2 :: tl2) k v = (k, v) :: hd2 :: tl2 := by
            simp [mapSet, h1, h2]
          rw [hmap]
          simp [sortedKeysB, hk, hchain, hrest]

theorem mem_mapSet : ∀ (m : Smap) (k v : Str) (p : Str × Str),
    p ∈ mapSet m k v → p = (k, v) ∨ p ∈ m := by
  intro m k v p
  induction m with
  | nil =>
    intro hmem
    simp [mapSet] at hmem
    simp [hmem]
  | cons hd tl ih =>
    intro hmem
    by_cases h1 : strLtB k hd.1 = true
    · simp only [mapSet, h1, if_true, List.mem_cons] at hmem
      simp only [List.mem_cons]
      tauto
    · by_cases h2 : strLtB hd.1 k = true
      · simp only [mapSet, h1, h2, if_false, if_true, Bool.false_eq_true,
          List.mem_cons] at hmem
        simp only [List.mem_cons]
        rcases hmem with h | h
        · tauto
        · rcases ih h with h' | h' <;> tauto
      · simp only [mapSet, h1, h2, if_false, Bool.false_eq_true, List.mem_cons] at hmem
        simp only [List.mem_cons]
        tauto

theorem parseStep_hasError_mono (m : PMachine) (c : Char)
    (h : m.req.hasError = true) : (parseStep m c).req.hasError = true := by
  rcases m with ⟨req, tmp, state, isKey⟩
  cases state <;>
    simp only [parseStep] <;>
    (repeat' split) <;>
    simp_all

theorem parseChars_hasError_mono : ∀ (buf : Str) (m : PMachine),
    m.req.hasError = true → (parseChars m buf).req.hasError = true := by
  intro buf
  induction buf with
  | nil => intro m h; exact h
  | cons c cs ih =>
    intro m h
    exact ih (parseStep m c) (parseStep_hasError_mono m c h)

theorem toNat_ofNat_of_upper (c : Char) (h : 'A' ≤ c ∧ c ≤ 'Z') :
    (Char.ofNat (c.toNat + 32)).toNat = c.toNat + 32 := by
  have h2 : c.toNat ≤ 90 := h.2
  have hv : (c.toNat + 32).isValidChar := by
    left
    omega
  rw [Char.ofNat, dif_pos hv]
  simp [Char.toNat, Char.ofNatAux, UInt32.toNat, BitVec.toNat_ofNat]

theorem lowerChar_idem (c : Char) : lowerChar (lowerChar c) = lowerChar c := by
  by_cases h : 'A' ≤ c ∧ c ≤ 'Z'
  · have ht := toNat_ofNat_of_upper c h
    have h1 : (65 : Nat) ≤ c.toNat := h.1
    unfold lowerChar
    rw [if_pos h, if_neg]
    intro hcon
    have h2 : (Char.ofNat (c.toNat + 32)).toNat ≤ 90 := hcon.2
    omega
  · unfold lowerChar
    rw [if_neg h, if_neg h]

theorem strtolower_idem (s : Str) : strtolower (strtolower s) = strtolower s := by
  induction s with
  | nil => rfl
  | cons x xs ih =>
    simp only [strtolower, List.map_cons] at ih ⊢
    rw [lowerChar_idem, ih]

theorem parseStep_headers_frame (m : PMachine) (c : Char)
    (h : m.state ≠ PState.headers) :
    (parseStep m c).req.headers = m.req.headers ∧
      (parseStep m c).isKey = m.isKey := by
  rcases m with ⟨req, tmp, state, isKey⟩
  cases state <;> simp only [parseStep] <;> (repeat' split) <;> simp_all

/-- Invariant behind the lower-cased header keys: every key already in
the map is fixed by `strtolower`, and while in value mode the working
token (the key being appended to) is lower-cased. -/
def KeysLowerInv (m : PMachine) : Prop :=
  (∀ p ∈ m.req.headers, strtolower p.1 = p.1) ∧
  (m.isKey = false → m.state = PState.headers ∧ strtolower m.tmp = m.tmp)

theorem parseStep_keysLower (m : PMachine) (c : Char) (hinv : KeysLowerInv m) :
    KeysLowerInv (parseStep m c) := by
  by_cases hst : m.state = PState.headers
  · obtain ⟨hmap, htmp⟩ := hinv
    rcases m with ⟨req, tmp, state, isKey⟩
    simp only at hst htmp hmap
    subst hst
    by_cases hn : c = '\n'
    · have hstep : parseStep ⟨req, tmp, PState.headers, isKey⟩ c =
          ⟨req, [], PState.headers, true⟩ := by
        simp [parseStep, hn]
      rw [hstep]
      exact ⟨hmap, by simp⟩
    · cases hik : isKey with
      | true =>
        by_cases hcol : c = ':'
        · have hstep : parseStep ⟨req, tmp, PState.headers, true⟩ c =
              ⟨{ req with headers := mapSet req.headers (strtolower tmp) [] },
                strtolower tmp, PState.headers, false⟩ := by
            simp [parseStep, hn, hcol]
          rw [hstep]
          refine ⟨?_, ?_⟩
          · intro p hp
            rcases mem_mapSet _ _ _ p hp with he | hm2
            · rw [he]
              exact strtolower_idem tmp
            · exact hmap p hm2
          · intro _
            exact ⟨rfl, strtolower_idem tmp⟩
        · have hstep : parseStep ⟨req, tmp, PState.headers, true⟩ c =
              ⟨req, tmp ++ [c], PState.headers, true⟩ := by
            simp [parseStep, hn, hcol]
          rw [hstep]
          exact ⟨hmap, by simp⟩
      | false =>
        have hlow : strtolower tmp = tmp := (htmp hik).2
        by_cases hr : c = '\r'
        · have hstep : parseStep ⟨req, tmp, PState.headers, false⟩ c =
              ⟨req, tmp, PState.headers, false⟩ := by
            simp [parseStep, hn, hr]
          rw [hstep]
          exact ⟨hmap, fun _ => ⟨rfl, hlow⟩⟩
        · by_cases hsp : mapGetD req.headers tmp = [] ∧ c = ' '
          · have hstep : parseStep ⟨req, tmp, PState.headers, false⟩ c =
                ⟨{ req with headers := mapSet req.headers tmp [] },
                  tmp, PState.headers, false⟩ := by
              simp [parseStep, hn, hr, hsp]
            rw [hstep]
            refine ⟨?_, fun _ => ⟨rfl, hlow⟩⟩
            intro p hp
            rcases mem_mapSet _ _ _ p hp with he | hm2
            · rw [he]
              exact hlow
            · exact hmap p hm2
          · have hstep : parseStep ⟨req, tmp, PState.headers, false⟩ c =
                ⟨{ req with headers := (mapSet req.headers tmp
                    (mapGetD req.headers tmp ++ [c])) },
                  tmp, PState.headers, false⟩ := by
              simp [parseStep, hn, hr, hsp]
            rw [hstep]
            refine ⟨?_, fun _ => ⟨rfl, hlow⟩⟩
            intro p hp
            rcases mem_mapSet _ _ _ p hp with he | hm2
            · rw [he]
              exact hlow
            · exact hmap p hm2
  · obtain ⟨hh, hk⟩ := parseStep_headers_frame m c hst
    refine ⟨?_, ?_⟩
    · rw [hh]
      exact hinv.1
    · intro hkf
      rw [hk] at hkf
      exact absurd (hinv.2 hkf).1 hst

theorem parseChars_keysLower : ∀ (buf : Str) (m : PMachine),
    KeysLowerInv m → KeysLowerInv (parseChars m buf) := by
  intro buf
  induction buf with
  | nil => intro m h; exact h
  | cons c cs ih =>
    intro m h
    exact ih (parseStep m c) (parseStep_keysLower m c h)

theorem parseStep_url_frame (m : PMachine) (c : Char)
    (h1 : m.state ≠ PState.url) (h2 : m.state ≠ PState.urlQs) :
    (parseStep m c).req.url = m.req.url ∧
      (parseStep m c).req.queryString = m.req.queryString ∧
      (((parseStep m c).state = PState.url ∨ (parseStep m c).state = PState.urlQs) →
        (parseStep m c).tmp = []) := by
  rcases m with ⟨req, tmp, state, isKey⟩
  cases state <;> simp only [parseStep] <;> (repeat' split) <;> simp_all

/-- Invariant behind the URL filtering: the `url` and `queryString`
fields never contain a filtered character, nor does the working token
while it is accumulating a path or query string. -/
def UrlInv (m : PMachine) : Prop :=
  hasBadUrlChar m.req.url = false ∧ hasBadUrlChar m.req.queryString = false ∧
  ((m.state = PState.url ∨ m.state = PState.urlQs) → hasBadUrlChar m.tmp = false)

theorem parseStep_urlInv (m : PMachine) (c : Char) (hinv : UrlInv m) :
    UrlInv (parseStep m c) := by
  obtain ⟨hu, hq, ht⟩ := hinv
  by_cases hurl : m.state = PState.url
  · have htmp : hasBadUrlChar m.tmp = false := ht (Or.inl hurl)
    rcases m with ⟨req, tmp, state, isKey⟩
    simp only at hurl htmp hu hq
    subst hurl
    by_cases hsp : c = ' ' ∨ c = '?'
    · refine ⟨?_, ?_, ?_⟩ <;> simp only [parseStep, if_pos hsp]
      · exact htmp
      · exact hq
      · intro _
        simp [hasBadUrlChar]
    · by_cases hbad : isBadUrlChar c = true
      · simp only [parseStep, if_neg hsp, hbad, if_true]
        exact ⟨hu, hq, fun _ => htmp⟩
      · refine ⟨?_, ?_, ?_⟩ <;>
          simp only [parseStep, if_neg hsp, hbad, Bool.false_eq_true, if_false]
        · exact hu
        · exact hq
        · intro _
          simp only [hasBadUrlChar, List.any_append, List.any_cons,
            List.any_nil, Bool.or_false] at htmp ⊢
          simp [htmp, hbad]
  · by_cases hqs : m.state = PState.urlQs
    · have htmp : hasBadUrlChar m.tmp = false := ht (Or.inr hqs)
      rcases m with ⟨req, tmp, state, isKey⟩
      simp only at hqs htmp hu hq
      subst hqs
      by_cases hsp : c = ' '
      · refine ⟨?_, ?_, ?_⟩ <;> simp only [parseStep, if_pos hsp]
        · exact hu
        · exact htmp
        · intro h
          rcases h with h | h <;> simp at h
      · by_cases hbad : isBadUrlChar c = true
        · simp only [parseStep, if_neg hsp, hbad, if_true]
          exact ⟨hu, hq, fun _ => htmp⟩
        · refine ⟨?_, ?_, ?_⟩ <;>
            simp only [parseStep, if_neg hsp, hbad, Bool.false_eq_true, if_false]
          · exact hu
          · exact hq
          · intro _
            simp only [hasBadUrlChar, List.any_append, List.any_cons,
              List.any_nil, Bool.or_false] at htmp ⊢
            simp [htmp, hbad]
    · obtain ⟨h1, h2, h3⟩ := parseStep_url_frame m c hurl hqs
      refine ⟨?_, ?_, ?_⟩
      · rw [h1]; exact hu
      · rw [h2]; exact hq
      · intro h
        rw [h3 h]
        simp [hasBadUrlChar]

theorem parseChars_urlInv : ∀ (buf : Str) (m : PMachine),
    UrlInv m → UrlInv (parseChars m buf) := by
  intro buf
  induction buf with
  | nil => intro m h; exact h
  | cons c cs ih =>
    intro m h
    exact ih (parseStep m c) (parseStep_urlInv m c h)

theorem httpRequestParse_method (req : Request) (buf : Str) :
    (httpRequestParse req buf).method = (parseChars (initMachine req) buf).req.method := by
  simp only [httpRequestParse]
  split <;> rfl

theorem httpRequestParse_url (req : Request) (buf : Str) :
    (httpRequestParse req buf).url = (parseChars (initMachine req) buf).req.url := by
  simp only [httpRequestParse]
  split <;> rfl

theorem httpRequestParse_queryString (req : Request) (buf : Str) :
    (httpRequestParse req buf).queryString =
      (parseChars (initMachine req) buf).req.queryString := by
  simp only [httpRequestParse]
  split <;> rfl

theorem httpRequestParse_headers (req : Request) (buf : Str) :
    (httpRequestParse req buf).headers = (parseChars (initMachine req) buf).req.headers := by
  simp only [httpRequestParse]
  split <;> rfl

/-! ### Claim theorems -/

/-- C1.  `Response::send` does recompute `Content-Length` from the
current body before serializing, but the connection header it forces
to `close` is spelled `Conection`: no `Connection` entry is ever
added, so a response whose application code set no such header (for
example the default response) is serialized without any `Connection`
header — the claim's `Connection: close` entry does not exist. -/
theorem send_sets_conection_not_connection :
    (∀ res : Response,
        mapFind? (sendPrepare res).headers "Content-Length".data =
          some (Nat.repr res.body.length).data ∧
        mapFind? (sendPrepare res).headers "Conection".data = some "close".data ∧
        mapFind? (sendPrepare res).headers "Connection".data =
          mapFind? res.headers "Connection".data) ∧
    mapFind? (sendPrepare ({} : Response)).headers "Connection".data = none := by
  refine ⟨?_, by decide⟩
  intro res
  simp only [sendPrepare]
  refine ⟨?_, ?_, ?_⟩
  · rw [mapFind?_mapSet_ne _ _ _ _ (by decide), mapFind?_mapSet_self]
  · exact mapFind?_mapSet_self _ _ _
  · rw [mapFind?_mapSet_ne _ _ _ _ (by decide), mapFind?_mapSet_ne _ _ _ _ (by decide)]

/-- C2, counterexample.  Inserting header `b` and then header `a`
serializes `a` first: `std::map` iterates in key order, not insertion
order, so the claim's "insertion order preserved" fails. -/
theorem response_headers_not_insertion_ordered :
    ((({} : Response).header "b".data "1".data).header "a".data "2".data).headers.map
        Prod.fst = ["a".data, "b".data] ∧
    (["a".data, "b".data] ≠ ["b".data, "a".data]) ∧
    headerBlock ((({} : Response).header "b".data "1".data).header "a".data
        "2".data).headers = "a: 2\r\nb: 1\r\n".data := by decide

/-- C2, amended.  `Response::send` serializes the header lines in
ascending byte-wise lexicographic order of the (case-sensitive) header
names — the iteration order of `std::map` — and both `header` and the
`send`-time mutation keep the map in that order. -/
theorem response_headers_sorted_by_key (res : Response) (k v : Str)
    (hs : sortedKeysB res.headers = true) :
    sortedKeysB ((res.header k v).headers) = true ∧
    sortedKeysB ((sendPrepare res).headers) = true := by
  constructor
  · simp only [Response.header]
    exact sortedKeysB_mapSet k v res.headers hs
  · simp only [sendPrepare]
    exact sortedKeysB_mapSet _ _ _ (sortedKeysB_mapSet _ _ _ hs)

theorem response_headers_sorted_by_key_witness :
    sortedKeysB ((({} : Response).header "b".data "1".data).headers) = true ∧
    sortedKeysB ((sendPrepare ({} : Response)).headers) = true :=
  response_headers_sorted_by_key {} "b".data "1".data (by decide)

/-- C3.  An unknown status code (999) has no reason phrase; but
`Response::send` and `Response::errorPage` then append that `NULL`
`const char *` to a `std::string`, which is undefined behaviour
(modelled `none`): serialization of such a response is *not*
well-defined, contrary to the claim. -/
theorem unknown_status_send_undefined :
    httpStatusMessage 999 = none ∧
    Response.send { statusCode := 999 } = none ∧
    Response.errorPage { statusCode := 999 } = none ∧
    httpStatusMessage 400 = some "Bad Request".data := by decide

/-- C5.  The single valid request buffer parses to exactly the claimed
field values. -/
theorem parse_valid_get_request :
    httpRequestParse {} "GET /x HTTP/1.1\r\nHost: a\r\n\r\n".data =
      { hasError := false, method := "GET".data, url := "/x".data,
        queryString := [], httpMajorVersion := 1, httpMinorVersion := 1,
        headers := [("host".data, "a".data)] } := by decide

/-- C6.  For every input buffer the parsed `url` and `queryString`
contain none of the four filtered characters, and the path
`/<script>` parses to `/script`. -/
theorem url_and_query_filtered :
    (∀ buf : Str,
        hasBadUrlChar (httpRequestParse {} buf).url = false ∧
        hasBadUrlChar (httpRequestParse {} buf).queryString = false) ∧
    (httpRequestParse {} "GET /<script> HTTP/1.1\r\n\r\n".data).url =
      "/script".data := by
  refine ⟨?_, by decide⟩
  intro buf
  have hInv : UrlInv (parseChars (initMachine {}) buf) :=
    parseChars_urlInv buf (initMachine {}) ⟨rfl, rfl, fun _ => rfl⟩
  rw [httpRequestParse_url, httpRequestParse_queryString]
  exact ⟨hInv.1, hInv.2.1⟩

/-- C7.  Every key registered in a parsed request's header map is
fixed by `strtolower`, and `Host: a` and `host: a` parse to the same
single-entry header map `{host: a}`. -/
theorem header_keys_lowercased :
    (∀ (buf : Str) (p : Str × Str),
        p ∈ (httpRequestParse {} buf).headers → strtolower p.1 = p.1) ∧
    ((httpRequestParse {} "GET / HTTP/1.1\r\nHost: a\r\n\r\n".data).headers =
      (httpRequestParse {} "GET / HTTP/1.1\r\nhost: a\r\n\r\n".data).headers) ∧
    ((httpRequestParse {} "GET / HTTP/1.1\r\nHost: a\r\n\r\n".data).headers =
      [("host".data, "a".data)]) := by
  refine ⟨?_, by decide, by decide⟩
  intro buf p hp
  rw [httpRequestParse_headers] at hp
  have hInv : KeysLowerInv (parseChars (initMachine {}) buf) := by
    refine parseChars_keysLower buf (initMachine {}) ⟨?_, ?_⟩
    · intro q hq
      simp [initMachine] at hq
    · intro h
      simp [initMachine] at h
  exact hInv.1 p hp

theorem header_keys_lowercased_witness :
    strtolower ("host".data, "a".data).1 = ("host".data, "a".data).1 :=
  header_keys_lowercased.1 "GET / HTTP/1.1\r\nHost: a\r\n\r\n".data
    ("host".data, "a".data) (by decide)

theorem protocol_token_not_http_sets_error (pre rest : Str)
    (hstate : (parseChars (initMachine {}) pre).state = PState.protocol)
    (htmp : (parseChars (initMachine {}) pre).tmp ≠ "HTTP".data) :
    (httpRequestParse {} (pre ++ '/' :: rest)).hasError = true := by
  have hslash : (parseStep (parseChars (initMachine {}) pre) '/').req.hasError = true := by
    rcases hM : parseChars (initMachine {}) pre with ⟨req, tmp, state, isKey⟩
    rw [hM] at hstate htmp
    simp only at hstate htmp
    subst hstate
    simp [parseStep, htmp]
  have hrest : (parseChars (parseStep (parseChars (initMachine {}) pre) '/')
      rest).req.hasError = true :=
    parseChars_hasError_mono rest _ hslash
  have hfold : parseChars (initMachine {}) (pre ++ '/' :: rest) =
      parseChars (parseStep (parseChars (initMachine {}) pre) '/') rest := by
    simp [parseChars, List.foldl_append]
  simp only [httpRequestParse]
  split
  · rfl
  · rw [hfold]
    exact hrest

theorem major_not_one_sets_error (req : Request) (buf : Str)
    (hmaj : (httpRequestParse req buf).httpMajorVersion ≠ 1) :
    (httpRequestParse req buf).hasError = true := by
  revert hmaj
  simp only [httpRequestParse]
  split
  · intro _
    rfl
  · intro hmaj
    rename_i hcond
    exact absurd hmaj hcond

theorem handler_error_responds_400 (cb : Bool) (buf : Str)
    (herr : (httpRequestParse {} buf).hasError = true) :
    (serverRequestHandler cb buf).callbackInvoked = false ∧
    (serverRequestHandler cb buf).response.statusCode = 400 ∧
    (∃ hd : Str, (serverRequestHandler cb buf).wire = some (hd,
      ("<!doctype html><html lang=\"en\"><head><title>Error</title></head><body><h1>Error 400</h1><hr><p>Bad Request</p></body></html>").data)) := by
  have h400 : httpStatusMessage 400 = some "Bad Request".data := by decide
  simp only [serverRequestHandler, herr, if_true]
  simp only [Response.errorPage, h400, Response.send, sendHead, sendPrepare,
    Response.header]
  refine ⟨by simp, by simp, ?_⟩
  exact ⟨_, rfl⟩

/-- C4.  A protocol token other than `HTTP` (set at the `/`), or a
final major version other than 1, makes `hasError` true; the handler
then answers status 400 with the generic HTML error page on the wire
and never invokes the application callback. -/
theorem hasError_rejected_with_400 :
    (∀ pre rest : Str,
        (parseChars (initMachine {}) pre).state = PState.protocol →
        (parseChars (initMachine {}) pre).tmp ≠ "HTTP".data →
        (httpRequestParse {} (pre ++ '/' :: rest)).hasError = true) ∧
    (∀ (req : Request) (buf : Str),
        (httpRequestParse req buf).httpMajorVersion ≠ 1 →
        (httpRequestParse req buf).hasError = true) ∧
    (∀ (cb : Bool) (buf : Str),
        (httpRequestParse {} buf).hasError = true →
        (serverRequestHandler cb buf).callbackInvoked = false ∧
        (serverRequestHandler cb buf).response.statusCode = 400 ∧
        (∃ hd : Str, (serverRequestHandler cb buf).wire = some (hd,
          ("<!doctype html><html lang=\"en\"><head><title>Error</title></head><body><h1>Error 400</h1><hr><p>Bad Request</p></body></html>").data))) :=
  ⟨protocol_token_not_http_sets_error, major_not_one_sets_error,
    handler_error_responds_400⟩

theorem hasError_rejected_with_400_witness :
    (httpRequestParse {} ("GET / FOO".data ++ '/' :: "1.1\r\n\r\n".data)).hasError = true ∧
    (httpRequestParse {} "GET / HTTP/2.0\r\n\r\n".data).hasError = true ∧
    ((serverRequestHandler true "GET / FOO/1.1\r\n\r\n".data).callbackInvoked = false ∧
      (serverRequestHandler true "GET / FOO/1.1\r\n\r\n".data).response.statusCode = 400 ∧
      (∃ hd : Str, (serverRequestHandler true "GET / FOO/1.1\r\n\r\n".data).wire = some (hd,
        ("<!doctype html><html lang=\"en\"><head><title>Error</title></head><body><h1>Error 400</h1><hr><p>Bad Request</p></body></html>").data))) :=
  ⟨hasError_rejected_with_400.1 "GET / FOO".data "1.1\r\n\r\n".data (by decide) (by decide),
    hasError_rejected_with_400.2.1 {} "GET / HTTP/2.0\r\n\r\n".data (by decide),
    hasError_rejected_with_400.2.2 true "GET / FOO/1.1\r\n\r\n".data (by decide)⟩

theorem major_digit_overwrites (m : PMachine) (c : Char)
    (hstate : m.state = PState.major) (hdig : isdigitB c = true) :
    (parseStep m c).req.httpMajorVersion = c.toNat - 48 ∧
    (parseStep m c).state = PState.major ∧
    (parseStep m c).req.httpMinorVersion = m.req.httpMinorVersion := by
  rcases m with ⟨req, tmp, state, isKey⟩
  simp only at hstate
  subst hstate
  simp [parseStep, hdig]

theorem minor_digit_overwrites (m : PMachine) (c : Char)
    (hstate : m.state = PState.minor) (hdig : isdigitB c = true) :
    (parseStep m c).req.httpMinorVersion = c.toNat - 48 ∧
    (parseStep m c).state = PState.minor ∧
    (parseStep m c).req.httpMajorVersion = m.req.httpMajorVersion := by
  have hnl : c ≠ '\n' := by
    intro he
    rw [he] at hdig
    exact absurd hdig (by decide)
  rcases m with ⟨req, tmp, state, isKey⟩
  simp only at hstate
  subst hstate
  simp [parseStep, hdig, hnl]

/-- C8.  In the MAJOR and MINOR states every decimal digit overwrites
the version field (the state is left unchanged), so only the last
digit before the transition survives: `25.34` parses to major 5,
minor 4. -/
theorem version_digit_overwrites :
    (∀ (m : PMachine) (c : Char), m.state = PState.major → isdigitB c = true →
        (parseStep m c).req.httpMajorVersion = c.toNat - 48 ∧
        (parseStep m c).state = PState.major ∧
        (parseStep m c).req.httpMinorVersion = m.req.httpMinorVersion) ∧
    (∀ (m : PMachine) (c : Char), m.state = PState.minor → isdigitB c = true →
        (parseStep m c).req.httpMinorVersion = c.toNat - 48 ∧
        (parseStep m c).state = PState.minor ∧
        (parseStep m c).req.httpMajorVersion = m.req.httpMajorVersion) ∧
    ((httpRequestParse {} "GET / HTTP/25.34\r\n\r\n".data).httpMajorVersion = 5 ∧
      (httpRequestParse {} "GET / HTTP/25.34\r\n\r\n".data).httpMinorVersion = 4) :=
  ⟨major_digit_overwrites, minor_digit_overwrites, by decide⟩

theorem version_digit_overwrites_witness :
    ((parseStep ⟨{}, [], PState.major, true⟩ '7').req.httpMajorVersion = '7'.toNat - 48 ∧
      (parseStep ⟨{}, [], PState.major, true⟩ '7').state = PState.major ∧
      (parseStep ⟨{}, [], PState.major, true⟩ '7').req.httpMinorVersion =
        (⟨{}, [], PState.major, true⟩ : PMachine).req.httpMinorVersion) ∧
    ((parseStep ⟨{}, [], PState.minor, true⟩ '9').req.httpMinorVersion = '9'.toNat - 48 ∧
      (parseStep ⟨{}, [], PState.minor, true⟩ '9').state = PState.minor ∧
      (parseStep ⟨{}, [], PState.minor, true⟩ '9').req.httpMajorVersion =
        (⟨{}, [], PState.minor, true⟩ : PMachine).req.httpMajorVersion) :=
  ⟨version_digit_overwrites.1 ⟨{}, [], PState.major, true⟩ '7' rfl (by decide),
    version_digit_overwrites.2.1 ⟨{}, [], PState.minor, true⟩ '9' rfl (by decide)⟩

theorem head8_of_ne (r1 r2 : Str) : ("HTTP/1.0".data ++ r1) ≠ ("HTTP/1.1".data ++ r2) := by
  intro hEq
  have hlen : ("HTTP/1.0".data).length = ("HTTP/1.1".data).length := by decide
  have := List.append_inj hEq hlen
  exact absurd this.1 (by decide)

/-- C9.  The status line written by `Response::send` starts with
`HTTP/1.0` exactly when the request's minor version is 0 and with
`HTTP/1.1` for every other minor version. -/
theorem status_line_version_matches_minor (res : Response) (r : Response) (h b : Str)
    (hsend : Response.send res = some (r, h, b)) :
    ((∃ rest, h = "HTTP/1.0".data ++ rest) ↔ res.req.httpMinorVersion = 0) ∧
    ((∃ rest, h = "HTTP/1.1".data ++ rest) ↔ res.req.httpMinorVersion ≠ 0) := by
  simp only [Response.send] at hsend
  cases hm : sendHead (sendPrepare res) with
  | none =>
    rw [hm] at hsend
    simp at hsend
  | some hh =>
    rw [hm] at hsend
    simp only [Option.some.injEq, Prod.mk.injEq] at hsend
    obtain ⟨hr, hh2, hb⟩ := hsend
    subst hh2
    simp only [sendHead] at hm
    cases hmsg : httpStatusMessage (sendPrepare res).statusCode with
    | none =>
      rw [hmsg] at hm
      simp at hm
    | some msg =>
      rw [hmsg] at hm
      simp only [Option.some.injEq] at hm
      have hreq : (sendPrepare res).req = res.req := rfl
      by_cases hmv : res.req.httpMinorVersion = 0
      · have hif : (if (sendPrepare res).req.httpMinorVersion = 0 then '0' else '1') = '0' := by
          rw [hreq, hmv]
          rfl
        have hform : ∃ t : Str, hh = "HTTP/1.0".data ++ t := by
          refine ⟨" ".data ++ ((Nat.repr (sendPrepare res).statusCode).data ++ (" ".data ++
            (msg ++ ("\r\n".data ++ (headerBlock (sendPrepare res).headers
              ++ "\r\n".data))))), ?_⟩
          rw [← hm, hif]
          simp
        obtain ⟨t, ht⟩ := hform
        refine ⟨⟨fun _ => hmv, fun _ => ⟨t, ht⟩⟩, ?_, ?_⟩
        · intro hex
          obtain ⟨rest, hEq⟩ := hex
          rw [ht] at hEq
          exact absurd hEq (head8_of_ne t rest)
        · intro hne
          exact absurd hmv hne
      · have hif : (if (sendPrepare res).req.httpMinorVersion = 0 then '0' else '1') = '1' := by
          rw [hreq]
          simp [hmv]
        have hform : ∃ t : Str, hh = "HTTP/1.1".data ++ t := by
          refine ⟨" ".data ++ ((Nat.repr (sendPrepare res).statusCode).data ++ (" ".data ++
            (msg ++ ("\r\n".data ++ (headerBlock (sendPrepare res).headers
              ++ "\r\n".data))))), ?_⟩
          rw [← hm, hif]
          simp
        obtain ⟨t, ht⟩ := hform
        refine ⟨⟨?_, ?_⟩, ⟨fun _ => hmv, fun _ => ⟨t, ht⟩⟩⟩
        · intro hex
          obtain ⟨rest, hEq⟩ := hex
          rw [ht] at hEq
          exact absurd hEq.symm (head8_of_ne rest t)
        · intro h0
          exact absurd h0 hmv

theorem status_line_version_matches_minor_witness :
    ((∃ rest, ("HTTP/1.0 200 Ok\r\nConection: close\r\nContent-Length: 0\r\n\r\n").data =
        "HTTP/1.0".data ++ rest) ↔ ({} : Response).req.httpMinorVersion = 0) ∧
    ((∃ rest, ("HTTP/1.0 200 Ok\r\nConection: close\r\nContent-Length: 0\r\n\r\n").data =
        "HTTP/1.1".data ++ rest) ↔ ({} : Response).req.httpMinorVersion ≠ 0) :=
  status_line_version_matches_minor {} (sendPrepare {})
    ("HTTP/1.0 200 Ok\r\nConection: close\r\nContent-Length: 0\r\n\r\n").data [] (by decide)

theorem method_unassigned_off_delimiter (m : PMachine) (c : Char)
    (hcond : ¬(m.state = PState.method ∧ c = ' ')) :
    (parseStep m c).req.method = m.req.method := by
  rcases m with ⟨req, tmp, state, isKey⟩
  cases state <;> simp only [parseStep] <;> (repeat' split) <;> simp_all

theorem url_unassigned_off_delimiter (m : PMachine) (c : Char)
    (hcond : ¬(m.state = PState.url ∧ (c = ' ' ∨ c = '?'))) :
    (parseStep m c).req.url = m.req.url := by
  rcases m with ⟨req, tmp, state, isKey⟩
  cases state <;> simp only [parseStep] <;> (repeat' split) <;> simp_all

theorem queryString_unassigned_off_delimiter (m : PMachine) (c : Char)
    (hcond : ¬(m.state = PState.urlQs ∧ c = ' ')) :
    (parseStep m c).req.queryString = m.req.queryString := by
  rcases m with ⟨req, tmp, state, isKey⟩
  cases state <;> simp only [parseStep] <;> (repeat' split) <;> simp_all

/-- C10.  `method`, `url` and `queryString` are written only by the
step that consumes their terminating delimiter; a buffer ending inside
the token (such as `GET` with no space) leaves the field at its prior
value — empty on a fresh request. -/
theorem token_fields_assigned_only_at_delimiter :
    (∀ (m : PMachine) (c : Char), ¬(m.state = PState.method ∧ c = ' ') →
        (parseStep m c).req.method = m.req.method) ∧
    (∀ (m : PMachine) (c : Char), ¬(m.state = PState.url ∧ (c = ' ' ∨ c = '?')) →
        (parseStep m c).req.url = m.req.url) ∧
    (∀ (m : PMachine) (c : Char), ¬(m.state = PState.urlQs ∧ c = ' ') →
        (parseStep m c).req.queryString = m.req.queryString) ∧
    ((httpRequestParse {} "GET".data).method = [] ∧
      (httpRequestParse {} "GET".data).url = [] ∧
      (httpRequestParse {} "GET".data).queryString = []) :=
  ⟨method_unassigned_off_delimiter, url_unassigned_off_delimiter,
    queryString_unassigned_off_delimiter, by decide⟩

theorem token_fields_assigned_only_at_delimiter_witness :
    (parseStep (initMachine {}) 'G').req.method = (initMachine {}).req.method ∧
    (parseStep (initMachine {}) 'G').req.url = (initMachine {}).req.url ∧
    (parseStep (initMachine {}) 'G').req.queryString = (initMachine {}).req.queryString :=
  ⟨token_fields_assigned_only_at_delimiter.1 (initMachine {}) 'G' (by decide),
    token_fields_assigned_only_at_delimiter.2.1 (initMachine {}) 'G' (by decide),
    token_fields_assigned_only_at_delimiter.2.2.1 (initMachine {}) 'G' (by decide)⟩

end SimpleHttpServer
